import Mathlib

/-!
Verification development for the quant-risk-aggregator repository.

The portfolio ledger (`src/portfolio.py`) and the risk engine (`src/risk.py`)
are embedded shallowly: Python floats become `ℚ`, Python ints become `ℤ`/`ℕ`,
the `positions` dict becomes an association list preserving insertion order,
`None`/NaN cells become `Option ℚ`, and a raised `ValueError` becomes the
`Except.error` branch carrying the message together with the ledger state at
the moment of the raise (mutations performed before a raise persist on the
Python object, so the carried state records them).
-/

namespace QuantRisk

/-- `Fill` dataclass from src/portfolio.py: date, symbol, side ("BUY"/"SELL"
as a plain string, checked at application time), quantity, price, commission. -/
structure Fill where
  date : ℤ
  symbol : String
  side : String
  qty : ℤ
  price : ℚ
  commission : ℚ
deriving Repr, DecidableEq

/-- `Position` dataclass from src/portfolio.py. -/
structure Position where
  symbol : String
  qty : ℤ
  avg_cost : ℚ
deriving Repr, DecidableEq

/-- `Position.market_value` from src/portfolio.py. -/
def Position.market_value (p : Position) (price : ℚ) : ℚ :=
  (p.qty : ℚ) * price

/-- The mutable state of the `Portfolio` class from src/portfolio.py.
`positions` is the `Dict[str, Position]`, kept as an association list in
insertion order (Python dicts preserve insertion order). -/
structure Portfolio where
  initial_cash : ℚ
  cash : ℚ
  positions : List (String × Position)
  realized_pnl : ℚ
  fills : List Fill
deriving Repr, DecidableEq

/-- `Portfolio.__init__` (the `initial_cash <= 0` check raises before any
state exists, so the constructor is modelled on the valid domain only). -/
def mkPortfolio (initial_cash : ℚ) : Portfolio :=
  { initial_cash := initial_cash
    cash := initial_cash
    positions := []
    realized_pnl := 0
    fills := [] }

/-- Dict lookup `self.positions[symbol]` / `symbol in self.positions`. -/
def lookupPosition (ps : List (String × Position)) (sym : String) : Option Position :=
  (ps.find? (fun kv => kv.1 = sym)).map Prod.snd

/-- In-place update of the dict entry for `sym` (the Python code mutates the
`Position` object stored in the dict). -/
def setPosition (ps : List (String × Position)) (sym : String) (pos : Position) :
    List (String × Position) :=
  ps.map (fun kv => if kv.1 = sym then (sym, pos) else kv)

/-- `Portfolio.get_position`: returns the existing position, or lazily inserts
a fresh zero position for the symbol (appended at the end, matching dict
insertion order), and returns the possibly-extended state. -/
def get_position (p : Portfolio) (sym : String) : Position × Portfolio :=
  match lookupPosition p.positions sym with
  | some pos => (pos, p)
  | none =>
      (⟨sym, 0, 0⟩, { p with positions := p.positions ++ [(sym, ⟨sym, 0, 0⟩)] })

/-- `Portfolio.apply_fill` from src/portfolio.py, line by line.

* `fill.qty <= 0` and an unrecognized side raise `ValueError` (modelled as
  `Except.error`, carrying the state at the raise — the checks precede every
  mutation, so that state is the input state).
* BUY: `total_cost = qty*px + comm`; if it exceeds cash, clamp to
  `max_qty = ⌊(cash - comm) / px⌋` and silently drop when `max_qty ≤ 0`;
  otherwise update the weighted average cost, add to qty, deduct cash.
* SELL: `sell_qty = min(qty, pos.qty)`; silently drop when `sell_qty ≤ 0`;
  otherwise realize `(px - avg_cost)*sell_qty - comm`, reduce qty (resetting
  `avg_cost` on a flat position), add proceeds to cash.
* On every non-dropped path a `Fill` is appended whose qty field is the local
  variable `qty` — reassigned to the clamped amount in the BUY branch, but
  NOT reassigned to `sell_qty` in the SELL branch (the source appends the
  originally requested quantity there). -/
def apply_fill (p : Portfolio) (f : Fill) : Except (String × Portfolio) Portfolio :=
  if f.qty ≤ 0 then
    .error ("fill qty must be positive", p)
  else if f.side ≠ "BUY" ∧ f.side ≠ "SELL" then
    .error ("fill.side must be BUY or SELL", p)
  else
    match get_position p f.symbol with
    | (pos, p1) =>
      let qty : ℤ := f.qty
      let px : ℚ := f.price
      let comm : ℚ := f.commission
      if f.side = "BUY" then
        let total_cost : ℚ := (qty : ℚ) * px + comm
        if total_cost > p1.cash then
          -- clamp to affordable
          let max_qty : ℤ := ⌊(p1.cash - comm) / px⌋
          if max_qty ≤ 0 then
            .ok p1
          else
            let qty := max_qty
            let total_cost : ℚ := (qty : ℚ) * px + comm
            let new_qty : ℤ := pos.qty + qty
            let avg : ℚ :=
              if new_qty = 0 then 0
              else (pos.avg_cost * (pos.qty : ℚ) + px * (qty : ℚ)) / (new_qty : ℚ)
            .ok { p1 with
                  positions := setPosition p1.positions f.symbol
                    { pos with qty := new_qty, avg_cost := avg }
                  cash := p1.cash - total_cost
                  fills := p1.fills ++
                    [{ date := f.date, symbol := f.symbol, side := f.side,
                       qty := qty, price := px, commission := comm }] }
        else
          let new_qty : ℤ := pos.qty + qty
          let avg : ℚ :=
            if new_qty = 0 then 0
            else (pos.avg_cost * (pos.qty : ℚ) + px * (qty : ℚ)) / (new_qty : ℚ)
          .ok { p1 with
                positions := setPosition p1.positions f.symbol
                  { pos with qty := new_qty, avg_cost := avg }
                cash := p1.cash - total_cost
                fills := p1.fills ++
                  [{ date := f.date, symbol := f.symbol, side := f.side,
                     qty := qty, price := px, commission := comm }] }
      else
        -- SELL
        let sell_qty : ℤ := min qty pos.qty
        if sell_qty ≤ 0 then
          .ok p1
        else
          let proceeds : ℚ := (sell_qty : ℚ) * px - comm
          let new_pos_qty : ℤ := pos.qty - sell_qty
          .ok { p1 with
                realized_pnl := p1.realized_pnl + (px - pos.avg_cost) * (sell_qty : ℚ) - comm
                positions := setPosition p1.positions f.symbol
                  { pos with qty := new_pos_qty
                             avg_cost := if new_pos_qty = 0 then 0 else pos.avg_cost }
                cash := p1.cash + proceeds
                fills := p1.fills ++
                  [{ date := f.date, symbol := f.symbol, side := f.side,
                     qty := qty, price := px, commission := comm }] }

/-- The position of `sym` as `get_position` would report it, without the
insertion side effect (the stored entry, or the zero position when absent). -/
def heldPos (p : Portfolio) (sym : String) : Position :=
  (lookupPosition p.positions sym).getD ⟨sym, 0, 0⟩

/-- The quantity of `sym` currently held (0 when the symbol has no entry). -/
def heldQty (p : Portfolio) (sym : String) : ℤ :=
  (heldPos p sym).qty

/-- The average cost of `sym` currently on the books (0 when absent). -/
def heldAvg (p : Portfolio) (sym : String) : ℚ :=
  (heldPos p sym).avg_cost

/-- The ledger state after `get_position`'s possible lazy insertion. -/
def afterGet (p : Portfolio) (sym : String) : Portfolio :=
  (get_position p sym).2

/-- Driving a fill sequence through the ledger: each `apply_fill` leaves the
object in the state it had at the return or at the raise. -/
def fillStep (p : Portfolio) (f : Fill) : Portfolio :=
  match apply_fill p f with
  | .ok p' => p'
  | .error (_, p') => p'

/-- The ledger after a whole sequence of `apply_fill` calls. -/
def applyFills (p : Portfolio) (fs : List Fill) : Portfolio :=
  fs.foldl fillStep p

/-! ### Risk engine (src/risk.py) -/

/-- `RiskLimits` frozen dataclass from src/risk.py. -/
structure RiskLimits where
  max_gross_exposure : ℚ := 200000
  max_drawdown : ℚ := 1 / 5
  max_var : ℚ := 2500
deriving Repr, DecidableEq

/-- `VaRSpec` frozen dataclass from src/risk.py. -/
structure VaRSpec where
  window : ℕ := 250
  alpha : ℚ := 99 / 100
deriving Repr, DecidableEq

/-- Insert into a sorted list (ascending). -/
def insertSorted (x : ℚ) : List ℚ → List ℚ
  | [] => [x]
  | y :: ys => if x ≤ y then x :: y :: ys else y :: insertSorted x ys

/-- Ascending sort, as `np.quantile` performs internally on the window. -/
def sortAsc (l : List ℚ) : List ℚ :=
  l.foldr insertSorted []

/-- `np.quantile(x, q)` with the default linear interpolation method: on the
ascending sort `s` of `x` with `n` elements, the virtual index is
`h = q*(n-1)`; the result interpolates linearly between the order statistics
at `⌊h⌋` and `⌊h⌋+1` (the upper index clipped to `n-1`). -/
def np_quantile (x : List ℚ) (q : ℚ) : ℚ :=
  let s := sortAsc x
  let n := s.length
  let h : ℚ := q * ((n : ℚ) - 1)
  let lo : ℕ := (⌊h⌋).toNat
  let hi : ℕ := min (lo + 1) (n - 1)
  let a := s.getD lo 0
  let b := s.getD hi 0
  a + (h - (lo : ℚ)) * (b - a)

/-- `var_of_window` helper inside `rolling_historical_var`:
`float(max(0.0, -np.quantile(x, 1.0 - alpha)))`. -/
def var_of_window (alpha : ℚ) (x : List ℚ) : ℚ :=
  max 0 (-(np_quantile x (1 - alpha)))

/-- `rolling_historical_var` from src/risk.py: raises for `window < 20`;
otherwise produces a series of the input's length that is NaN (`none`) before
index `window - 1` and, from index `window - 1` on, the VaR of the trailing
window `vals[i - window + 1 : i + 1]`. -/
def rolling_historical_var (pnl_series : List ℚ) (window : ℕ) (alpha : ℚ) :
    Except String (List (Option ℚ)) :=
  if window < 20 then
    .error "window too small; use >= 20"
  else
    .ok ((List.range pnl_series.length).map (fun i =>
      if window - 1 ≤ i then
        some (var_of_window alpha ((pnl_series.drop (i + 1 - window)).take window))
      else
        none))

/-- `equity.cummax()`: the running maximum, inclusive of the current index. -/
def cummax : List ℚ → List ℚ
  | [] => []
  | x :: xs => List.scanl max x xs

/-- `compute_drawdown` from src/risk.py:
`dd = (peak - equity) / peak.replace(0, nan)` then `fillna(0.0)` — i.e. the
cell is 0 whenever the running peak is 0, else `(peak - equity) / peak`. -/
def compute_drawdown (equity : List ℚ) : List ℚ :=
  ((cummax equity).zip equity).map (fun pe =>
    if pe.1 = 0 then 0 else (pe.1 - pe.2) / pe.1)

/-- The fields of the snapshot row that `check_limits` reads: the dict keys
`"GrossExposure"` and `"Equity"` (required), and `"Drawdown"` read with
`snapshot.get("Drawdown", 0.0)` (defaulted when absent). -/
structure SnapshotRow where
  grossExposure : ℚ
  drawdown : Option ℚ
  equity : ℚ
deriving Repr, DecidableEq

/-- An alert dict produced by `check_limits`. -/
structure Alert where
  date : ℤ
  type : String
  value : ℚ
  limit : ℚ
deriving Repr, DecidableEq

/-- `check_limits` from src/risk.py: four independent conditions appending
alerts in a fixed order; `var_value` is `Option ℚ` (a `None`/NaN VaR cell is
`none`, so the VaR test only fires on a present value). -/
def check_limits (date : ℤ) (snapshot : SnapshotRow) (var_value : Option ℚ)
    (limits : RiskLimits) : List Alert :=
  let gross := snapshot.grossExposure
  let dd := snapshot.drawdown.getD 0
  let eq := snapshot.equity
  (if gross > limits.max_gross_exposure then
    [{ date := date, type := "GROSS_EXPOSURE", value := gross, limit := limits.max_gross_exposure }]
   else []) ++
  (if dd ≥ limits.max_drawdown then
    [{ date := date, type := "DRAWDOWN", value := dd, limit := limits.max_drawdown }]
   else []) ++
  (match var_value with
   | some v => if v > limits.max_var then
        [{ date := date, type := "VAR", value := v, limit := limits.max_var }]
      else []
   | none => []) ++
  (if eq ≤ 0 then
    [{ date := date, type := "EQUITY_NONPOSITIVE", value := eq, limit := 0 }]
   else [])

/-! ### Association-list lemmas for the positions dict -/

theorem lookupPosition_set_self (ps : List (String × Position)) (s : String) (pos : Position) :
    lookupPosition (setPosition ps s pos) s = (lookupPosition ps s).map (fun _ => pos) := by
  induction ps with
  | nil => rfl
  | cons kv t ih =>
      by_cases h : kv.1 = s
      · simp [setPosition, lookupPosition, List.find?_cons, h]
      · simp only [setPosition, lookupPosition, List.map_cons] at ih ⊢
        rw [if_neg h]
        rw [List.find?_cons_of_neg _ (by simpa using h), List.find?_cons_of_neg _ (by simpa using h)]
        exact ih

theorem lookupPosition_set_other (ps : List (String × Position)) (s s' : String)
    (pos : Position) (h : s' ≠ s) :
    lookupPosition (setPosition ps s pos) s' = lookupPosition ps s' := by
  induction ps with
  | nil => rfl
  | cons kv t ih =>
      by_cases hk : kv.1 = s
      · simp only [setPosition, lookupPosition, List.map_cons] at ih ⊢
        rw [if_pos hk]
        rw [List.find?_cons_of_neg _ (by simpa using (Ne.symm h)),
            List.find?_cons_of_neg _ (by simp [hk]; exact fun hc => (h (hc ▸ hk.symm ▸ rfl)).elim)]
        exact ih
      · simp only [setPosition, lookupPosition, List.map_cons] at ih ⊢
        rw [if_neg hk]
        by_cases hks : kv.1 = s'
        · rw [List.find?_cons_of_pos _ (by simpa using hks),
              List.find?_cons_of_pos _ (by simpa using hks)]
        · rw [List.find?_cons_of_neg _ (by simpa using hks),
              List.find?_cons_of_neg _ (by simpa using hks)]
          exact ih

theorem lookupPosition_append (ps qs : List (String × Position)) (s : String) :
    lookupPosition (ps ++ qs) s = (lookupPosition ps s).or (lookupPosition qs s) := by
  simp only [lookupPosition, List.find?_append]
  cases List.find? (fun kv => kv.1 = s) ps <;> simp

/-! ### `get_position` characterization -/

theorem get_position_eq (p : Portfolio) (s : String) :
    get_position p s = (heldPos p s, afterGet p s) := by
  unfold get_position heldPos afterGet
  cases h : lookupPosition p.positions s <;> simp [get_position, h]

theorem afterGet_cash (p : Portfolio) (s : String) : (afterGet p s).cash = p.cash := by
  unfold afterGet get_position
  cases h : lookupPosition p.positions s <;> simp

theorem afterGet_realized (p : Portfolio) (s : String) :
    (afterGet p s).realized_pnl = p.realized_pnl := by
  unfold afterGet get_position
  cases h : lookupPosition p.positions s <;> simp

theorem afterGet_fills (p : Portfolio) (s : String) : (afterGet p s).fills = p.fills := by
  unfold afterGet get_position
  cases h : lookupPosition p.positions s <;> simp

theorem afterGet_initial (p : Portfolio) (s : String) :
    (afterGet p s).initial_cash = p.initial_cash := by
  unfold afterGet get_position
  cases h : lookupPosition p.positions s <;> simp

theorem lookup_afterGet_self (p : Portfolio) (s : String) :
    lookupPosition (afterGet p s).positions s = some (heldPos p s) := by
  unfold afterGet get_position heldPos
  cases h : lookupPosition p.positions s with
  | none =>
      simp only [h, Option.getD_none]
      rw [lookupPosition_append, h, Option.none_or]
      rw [lookupPosition, List.find?_cons_of_pos _ (by simp)]
      rfl
  | some pos => simp [h]

theorem heldPos_afterGet (p : Portfolio) (s s' : String) :
    heldPos (afterGet p s) s' = heldPos p s' := by
  by_cases hss : s' = s
  · subst hss
    rw [heldPos, lookup_afterGet_self]
    rfl
  · unfold afterGet get_position
    cases h : lookupPosition p.positions s with
    | none =>
        unfold heldPos
        simp only [lookupPosition_append]
        have hnone : lookupPosition [(s, (⟨s, 0, 0⟩ : Position))] s' = none := by
          rw [lookupPosition, List.find?_cons_of_neg _ (by simpa using Ne.symm hss)]
          rfl
        simp [hnone]
    | some pos => simp

theorem heldQty_afterGet (p : Portfolio) (s s' : String) :
    heldQty (afterGet p s) s' = heldQty p s' := by
  unfold heldQty; rw [heldPos_afterGet]

theorem heldAvg_afterGet (p : Portfolio) (s s' : String) :
    heldAvg (afterGet p s) s' = heldAvg p s' := by
  unfold heldAvg; rw [heldPos_afterGet]

/-! ### Branch characterizations of `apply_fill` -/

theorem heldPos_qty (p : Portfolio) (s : String) : (heldPos p s).qty = heldQty p s := rfl

theorem heldPos_avg (p : Portfolio) (s : String) : (heldPos p s).avg_cost = heldAvg p s := rfl

theorem apply_fill_qty_nonpos (p : Portfolio) (f : Fill) (h : f.qty ≤ 0) :
    apply_fill p f = .error ("fill qty must be positive", p) := by
  rw [apply_fill, if_pos h]

theorem apply_fill_bad_side (p : Portfolio) (f : Fill) (h : ¬f.qty ≤ 0)
    (hb : f.side ≠ "BUY") (hs : f.side ≠ "SELL") :
    apply_fill p f = .error ("fill.side must be BUY or SELL", p) := by
  rw [apply_fill, if_neg h, if_pos ⟨hb, hs⟩]

/-- Fully affordable BUY: executes the requested quantity. -/
theorem apply_fill_buy_full (p : Portfolio) (f : Fill) (h : 0 < f.qty) (hs : f.side = "BUY")
    (hafford : (f.qty : ℚ) * f.price + f.commission ≤ p.cash) :
    apply_fill p f = .ok
      { afterGet p f.symbol with
        positions := setPosition (afterGet p f.symbol).positions f.symbol
          { heldPos p f.symbol with
            qty := heldQty p f.symbol + f.qty
            avg_cost :=
              if heldQty p f.symbol + f.qty = 0 then 0
              else (heldAvg p f.symbol * (heldQty p f.symbol : ℚ) + f.price * (f.qty : ℚ)) /
                ((heldQty p f.symbol + f.qty : ℤ) : ℚ) }
        cash := p.cash - ((f.qty : ℚ) * f.price + f.commission)
        fills := p.fills ++ [{ f with qty := f.qty }] } := by
  rw [apply_fill, if_neg (not_le.mpr h), if_neg (by simp [hs])]
  simp only [get_position_eq]
  rw [hs]
  rw [if_pos rfl, afterGet_cash, if_neg (not_lt.mpr hafford), afterGet_fills]
  rfl

/-- Cash-constrained BUY with a positive affordable quantity: executes the
clamped quantity `⌊(cash - comm)/px⌋`. -/
theorem apply_fill_buy_clamped (p : Portfolio) (f : Fill) (h : 0 < f.qty) (hs : f.side = "BUY")
    (hover : p.cash < (f.qty : ℚ) * f.price + f.commission)
    (hpos : 0 < ⌊(p.cash - f.commission) / f.price⌋) :
    apply_fill p f = .ok
      { afterGet p f.symbol with
        positions := setPosition (afterGet p f.symbol).positions f.symbol
          { heldPos p f.symbol with
            qty := heldQty p f.symbol + ⌊(p.cash - f.commission) / f.price⌋
            avg_cost :=
              if heldQty p f.symbol + ⌊(p.cash - f.commission) / f.price⌋ = 0 then 0
              else (heldAvg p f.symbol * (heldQty p f.symbol : ℚ) +
                     f.price * ((⌊(p.cash - f.commission) / f.price⌋ : ℤ) : ℚ)) /
                ((heldQty p f.symbol + ⌊(p.cash - f.commission) / f.price⌋ : ℤ) : ℚ) }
        cash := p.cash - (((⌊(p.cash - f.commission) / f.price⌋ : ℤ) : ℚ) * f.price + f.commission)
        fills := p.fills ++ [{ f with qty := ⌊(p.cash - f.commission) / f.price⌋ }] } := by
  rw [apply_fill, if_neg (not_le.mpr h), if_neg (by simp [hs])]
  simp only [get_position_eq]
  rw [hs]
  rw [if_pos rfl, afterGet_cash, if_pos hover, if_neg (not_le.mpr hpos), afterGet_fills]
  rfl

/-- Cash-constrained BUY whose affordable quantity is ≤ 0: silently dropped,
but the state keeps `get_position`'s lazy insertion. -/
theorem apply_fill_buy_dropped (p : Portfolio) (f : Fill) (h : 0 < f.qty) (hs : f.side = "BUY")
    (hover : p.cash < (f.qty : ℚ) * f.price + f.commission)
    (hnp : ⌊(p.cash - f.commission) / f.price⌋ ≤ 0) :
    apply_fill p f = .ok (afterGet p f.symbol) := by
  rw [apply_fill, if_neg (not_le.mpr h), if_neg (by simp [hs])]
  simp only [get_position_eq]
  rw [hs]
  rw [if_pos rfl, afterGet_cash, if_pos hover, if_pos hnp]

/-- SELL with positive held quantity: executes `min requested held`, but the
appended `Fill` record carries the originally requested quantity. -/
theorem apply_fill_sell_exec (p : Portfolio) (f : Fill) (h : 0 < f.qty) (hs : f.side = "SELL")
    (hheld : 0 < heldQty p f.symbol) :
    apply_fill p f = .ok
      { afterGet p f.symbol with
        realized_pnl := p.realized_pnl +
          (f.price - heldAvg p f.symbol) * ((min f.qty (heldQty p f.symbol) : ℤ) : ℚ) -
          f.commission
        positions := setPosition (afterGet p f.symbol).positions f.symbol
          { heldPos p f.symbol with
            qty := heldQty p f.symbol - min f.qty (heldQty p f.symbol)
            avg_cost :=
              if heldQty p f.symbol - min f.qty (heldQty p f.symbol) = 0 then 0
              else heldAvg p f.symbol }
        cash := p.cash + (((min f.qty (heldQty p f.symbol) : ℤ) : ℚ) * f.price - f.commission)
        fills := p.fills ++ [{ f with qty := f.qty }] } := by
  rw [apply_fill, if_neg (not_le.mpr h), if_neg (by simp [hs])]
  simp only [get_position_eq]
  rw [hs]
  rw [if_neg (by decide : ¬("SELL" : String) = "BUY")]
  simp only [heldPos_qty, heldPos_avg]
  rw [if_neg (not_le.mpr (lt_min h hheld)),
      afterGet_cash, afterGet_fills, afterGet_realized]

/-- SELL with no held quantity: silently dropped, but the state keeps
`get_position`'s lazy insertion. -/
theorem apply_fill_sell_dropped (p : Portfolio) (f : Fill) (h : 0 < f.qty) (hs : f.side = "SELL")
    (hheld : heldQty p f.symbol ≤ 0) :
    apply_fill p f = .ok (afterGet p f.symbol) := by
  rw [apply_fill, if_neg (not_le.mpr h), if_neg (by simp [hs])]
  simp only [get_position_eq]
  rw [hs]
  rw [if_neg (by decide : ¬("SELL" : String) = "BUY")]
  simp only [heldPos_qty]
  rw [if_pos (le_trans (min_le_right f.qty (heldQty p f.symbol)) hheld)]

/-! ### Further positions-mapping lemmas -/

theorem afterGet_present (p : Portfolio) (s : String)
    (h : lookupPosition p.positions s ≠ none) : afterGet p s = p := by
  unfold afterGet get_position
  cases hl : lookupPosition p.positions s with
  | none => exact absurd hl h
  | some pos => rfl

theorem lookup_afterGet_other (p : Portfolio) (s s' : String) (h : s' ≠ s) :
    lookupPosition (afterGet p s).positions s' = lookupPosition p.positions s' := by
  unfold afterGet get_position
  cases hl : lookupPosition p.positions s with
  | some pos => rfl
  | none =>
      simp only
      rw [lookupPosition_append]
      have hnone : lookupPosition [(s, (⟨s, 0, 0⟩ : Position))] s' = none := by
        rw [lookupPosition, List.find?_cons_of_neg _ (by simpa using Ne.symm h)]
        rfl
      rw [hnone]
      cases lookupPosition p.positions s' <;> rfl

theorem lookup_set_afterGet_self (p : Portfolio) (s : String) (np : Position) :
    lookupPosition (setPosition (afterGet p s).positions s np) s = some np := by
  rw [lookupPosition_set_self, lookup_afterGet_self]
  rfl

theorem lookup_set_afterGet_other (p : Portfolio) (s s' : String) (np : Position) (h : s' ≠ s) :
    lookupPosition (setPosition (afterGet p s).positions s np) s' =
      lookupPosition p.positions s' := by
  rw [lookupPosition_set_other _ _ _ _ h, lookup_afterGet_other _ _ _ h]

/-! ### Claim theorems -/

/-- C10: when `apply_fill` raises on an invalid request (quantity ≤ 0, or a
side that is neither BUY nor SELL), the validation happens before any
mutation: the error carries exactly the input ledger state, so cash, the
positions mapping (no lazily created position), realized PnL and the fill
history are unchanged. -/
theorem C10_invalid_fill_state_unchanged (p : Portfolio) (f : Fill)
    (h : f.qty ≤ 0 ∨ (f.side ≠ "BUY" ∧ f.side ≠ "SELL")) :
    ∃ msg, apply_fill p f = .error (msg, p) := by
  by_cases hq : f.qty ≤ 0
  · exact ⟨_, apply_fill_qty_nonpos p f hq⟩
  · rcases h with h | ⟨hb, hsd⟩
    · exact absurd h hq
    · exact ⟨_, apply_fill_bad_side p f hq hb hsd⟩

/-- Witness for C10 at a concrete input: a zero-quantity BUY request on a
fresh ledger errors out and carries back the untouched state. -/
theorem C10_invalid_fill_state_unchanged_witness :
    (((⟨0, "A", "BUY", 0, 1, 0⟩ : Fill).qty ≤ 0 ∨
      ((⟨0, "A", "BUY", 0, 1, 0⟩ : Fill).side ≠ "BUY" ∧
       (⟨0, "A", "BUY", 0, 1, 0⟩ : Fill).side ≠ "SELL")) ∧
     ∃ msg, apply_fill (mkPortfolio 100) ⟨0, "A", "BUY", 0, 1, 0⟩ =
       .error (msg, mkPortfolio 100)) := by
  refine ⟨Or.inl (by decide), ?_⟩
  exact C10_invalid_fill_state_unchanged (mkPortfolio 100) ⟨0, "A", "BUY", 0, 1, 0⟩
    (Or.inl (by decide))

/-- C9 counterexample: the claim says a dropped cash-constrained BUY leaves
the positions mapping exactly as before the call, but `get_position` has
already lazily inserted a zero position for a fresh symbol by the time the
drop happens. Input: ledger with cash 1, BUY 1 share of "A" @ 100 with
commission 0 — total cost 100 > 1 and ⌊(1 - 0)/100⌋ = 0 ≤ 0, so the fill is
dropped, yet the mapping gains the key "A". -/
theorem C9_counterexample :
    (0 : ℤ) < (⟨0, "A", "BUY", 1, 100, 0⟩ : Fill).qty ∧
    (mkPortfolio 1).cash <
      ((⟨0, "A", "BUY", 1, 100, 0⟩ : Fill).qty : ℚ) * (⟨0, "A", "BUY", 1, 100, 0⟩ : Fill).price +
        (⟨0, "A", "BUY", 1, 100, 0⟩ : Fill).commission ∧
    ⌊((mkPortfolio 1).cash - (⟨0, "A", "BUY", 1, 100, 0⟩ : Fill).commission) /
        (⟨0, "A", "BUY", 1, 100, 0⟩ : Fill).price⌋ ≤ 0 ∧
    ∃ p', apply_fill (mkPortfolio 1) ⟨0, "A", "BUY", 1, 100, 0⟩ = .ok p' ∧
      p'.positions ≠ (mkPortfolio 1).positions := by
  refine ⟨by decide, by norm_num [mkPortfolio], by norm_num [mkPortfolio, Rat.floor_def], ?_⟩
  refine ⟨afterGet (mkPortfolio 1) "A",
    apply_fill_buy_dropped _ _ (by decide) rfl (by norm_num [mkPortfolio])
      (by norm_num [mkPortfolio, Rat.floor_def]), ?_⟩
  simp [afterGet, get_position, lookupPosition, mkPortfolio]

/-- C9 amended: a cash-constrained BUY whose recomputed affordable quantity
`⌊(cash - commission)/price⌋` is ≤ 0 returns without raising and leaves cash,
realized PnL, the fill history, and every position's quantity and average
cost unchanged; the only possible state change is that a zero-quantity
position is lazily created for the fill's symbol when it had no entry (if the
symbol already had an entry, the positions mapping is literally unchanged). -/
theorem C9_amended_dropped_buy (p : Portfolio) (f : Fill) (hs : f.side = "BUY")
    (hq : 0 < f.qty) (_hpx : 0 < f.price)
    (hover : p.cash < (f.qty : ℚ) * f.price + f.commission)
    (hnp : ⌊(p.cash - f.commission) / f.price⌋ ≤ 0) :
    ∃ p', apply_fill p f = .ok p' ∧ p'.cash = p.cash ∧
      p'.realized_pnl = p.realized_pnl ∧ p'.fills = p.fills ∧
      (∀ s, heldQty p' s = heldQty p s ∧ heldAvg p' s = heldAvg p s) ∧
      (lookupPosition p.positions f.symbol ≠ none → p'.positions = p.positions) := by
  refine ⟨afterGet p f.symbol, apply_fill_buy_dropped p f hq hs hover hnp,
    afterGet_cash p f.symbol, afterGet_realized p f.symbol, afterGet_fills p f.symbol,
    fun s => ⟨heldQty_afterGet p f.symbol s, heldAvg_afterGet p f.symbol s⟩, fun h => ?_⟩
  rw [afterGet_present p f.symbol h]

/-- Witness for the amended C9 at the counterexample input. -/
theorem C9_amended_dropped_buy_witness :
    ((0 : ℤ) < (1 : ℤ) ∧ (0 : ℚ) < 100 ∧ (1 : ℚ) < 1 * 100 + 0 ∧
      ⌊((1 : ℚ) - 0) / 100⌋ ≤ 0) ∧
    ∃ p', apply_fill (mkPortfolio 1) ⟨0, "A", "BUY", 1, 100, 0⟩ = .ok p' ∧
      p'.cash = (mkPortfolio 1).cash ∧
      p'.realized_pnl = (mkPortfolio 1).realized_pnl ∧
      p'.fills = (mkPortfolio 1).fills ∧
      (∀ s, heldQty p' s = heldQty (mkPortfolio 1) s ∧
        heldAvg p' s = heldAvg (mkPortfolio 1) s) ∧
      (lookupPosition (mkPortfolio 1).positions "A" ≠ none →
        p'.positions = (mkPortfolio 1).positions) := by
  refine ⟨⟨by decide, by norm_num, by norm_num, by norm_num [Rat.floor_def]⟩, ?_⟩
  exact C9_amended_dropped_buy (mkPortfolio 1) ⟨0, "A", "BUY", 1, 100, 0⟩ rfl
    (by decide) (by norm_num) (by norm_num [mkPortfolio]) (by norm_num [mkPortfolio, Rat.floor_def])

/-- C8: `check_limits` fires each of its four alerts independently, exactly
under its own condition — gross exposure strictly above the limit, drawdown
at or above the limit (≥, not >), VaR present and strictly above the limit,
equity ≤ 0 — and is a pure function of the arguments passed in. -/
theorem C8_check_limits_conditions (d : ℤ) (s : SnapshotRow) (v : Option ℚ)
    (L : RiskLimits) :
    ((∃ a ∈ check_limits d s v L, a.type = "GROSS_EXPOSURE") ↔
      s.grossExposure > L.max_gross_exposure) ∧
    ((∃ a ∈ check_limits d s v L, a.type = "DRAWDOWN") ↔
      s.drawdown.getD 0 ≥ L.max_drawdown) ∧
    ((∃ a ∈ check_limits d s v L, a.type = "VAR") ↔
      ∃ x, v = some x ∧ x > L.max_var) ∧
    ((∃ a ∈ check_limits d s v L, a.type = "EQUITY_NONPOSITIVE") ↔ s.equity ≤ 0) := by
  rcases v with _ | x <;>
    · simp only [check_limits]
      split_ifs <;> simp_all

/-- C3: for a BUY accepted with effective quantity `q` (the amount by which
the held quantity grows), cash decreases by exactly `q*price + commission`;
for a SELL executed with effective quantity `q` (the amount by which the held
quantity shrinks), cash increases by exactly `q*price - commission`. -/
theorem C3_cash_conservation (p p' : Portfolio) (f : Fill)
    (h : apply_fill p f = .ok p') (hacc : p'.fills ≠ p.fills) :
    (f.side = "BUY" → p'.cash = p.cash -
      (((heldQty p' f.symbol - heldQty p f.symbol : ℤ) : ℚ) * f.price + f.commission)) ∧
    (f.side = "SELL" → p'.cash = p.cash +
      (((heldQty p f.symbol - heldQty p' f.symbol : ℤ) : ℚ) * f.price - f.commission)) := by
  by_cases hq : f.qty ≤ 0
  · rw [apply_fill_qty_nonpos p f hq] at h
    exact absurd h (by simp)
  have hq' : 0 < f.qty := lt_of_not_le hq
  by_cases hb : f.side = "BUY"
  · refine ⟨fun _ => ?_, fun hsell => by rw [hb] at hsell; exact absurd hsell (by decide)⟩
    rcases le_or_lt ((f.qty : ℚ) * f.price + f.commission) p.cash with hle | hgt
    · rw [apply_fill_buy_full p f hq' hb hle] at h
      injection h with h'
      subst h'
      have hqty : heldQty
          { afterGet p f.symbol with
            positions := setPosition (afterGet p f.symbol).positions f.symbol
              { heldPos p f.symbol with
                qty := heldQty p f.symbol + f.qty
                avg_cost :=
                  if heldQty p f.symbol + f.qty = 0 then 0
                  else (heldAvg p f.symbol * (heldQty p f.symbol : ℚ) + f.price * (f.qty : ℚ)) /
                    ((heldQty p f.symbol + f.qty : ℤ) : ℚ) }
            cash := p.cash - ((f.qty : ℚ) * f.price + f.commission)
            fills := p.fills ++ [{ f with qty := f.qty }] } f.symbol =
          heldQty p f.symbol + f.qty := by
        simp [heldQty, heldPos, lookup_set_afterGet_self]
      rw [hqty]
      have harith : heldQty p f.symbol + f.qty - heldQty p f.symbol = f.qty := by omega
      rw [harith]
    · rcases le_or_lt ⌊(p.cash - f.commission) / f.price⌋ 0 with hle0 | hpos0
      · rw [apply_fill_buy_dropped p f hq' hb hgt hle0] at h
        injection h with h'
        subst h'
        exact absurd (afterGet_fills p f.symbol) hacc
      · rw [apply_fill_buy_clamped p f hq' hb hgt hpos0] at h
        injection h with h'
        subst h'
        have hqty : heldQty
            { afterGet p f.symbol with
              positions := setPosition (afterGet p f.symbol).positions f.symbol
                { heldPos p f.symbol with
                  qty := heldQty p f.symbol + ⌊(p.cash - f.commission) / f.price⌋
                  avg_cost :=
                    if heldQty p f.symbol + ⌊(p.cash - f.commission) / f.price⌋ = 0 then 0
                    else (heldAvg p f.symbol * (heldQty p f.symbol : ℚ) +
                           f.price * ((⌊(p.cash - f.commission) / f.price⌋ : ℤ) : ℚ)) /
                      ((heldQty p f.symbol + ⌊(p.cash - f.commission) / f.price⌋ : ℤ) : ℚ) }
              cash := p.cash -
                (((⌊(p.cash - f.commission) / f.price⌋ : ℤ) : ℚ) * f.price + f.commission)
              fills := p.fills ++
                [{ f with qty := ⌊(p.cash - f.commission) / f.price⌋ }] } f.symbol =
            heldQty p f.symbol + ⌊(p.cash - f.commission) / f.price⌋ := by
          simp [heldQty, heldPos, lookup_set_afterGet_self]
        rw [hqty]
        have harith : heldQty p f.symbol + ⌊(p.cash - f.commission) / f.price⌋ -
            heldQty p f.symbol = ⌊(p.cash - f.commission) / f.price⌋ := by omega
        rw [harith]
  · by_cases hsell : f.side = "SELL"
    · refine ⟨fun hbuy => absurd hbuy hb, fun _ => ?_⟩
      rcases le_or_lt (heldQty p f.symbol) 0 with hh | hh
      · rw [apply_fill_sell_dropped p f hq' hsell hh] at h
        injection h with h'
        subst h'
        exact absurd (afterGet_fills p f.symbol) hacc
      · rw [apply_fill_sell_exec p f hq' hsell hh] at h
        injection h with h'
        subst h'
        have hqty : heldQty
            { afterGet p f.symbol with
              realized_pnl := p.realized_pnl +
                (f.price - heldAvg p f.symbol) * ((min f.qty (heldQty p f.symbol) : ℤ) : ℚ) -
                f.commission
              positions := setPosition (afterGet p f.symbol).positions f.symbol
                { heldPos p f.symbol with
                  qty := heldQty p f.symbol - min f.qty (heldQty p f.symbol)
                  avg_cost :=
                    if heldQty p f.symbol - min f.qty (heldQty p f.symbol) = 0 then 0
                    else heldAvg p f.symbol }
              cash := p.cash +
                (((min f.qty (heldQty p f.symbol) : ℤ) : ℚ) * f.price - f.commission)
              fills := p.fills ++ [{ f with qty := f.qty }] } f.symbol =
            heldQty p f.symbol - min f.qty (heldQty p f.symbol) := by
          simp [heldQty, heldPos, lookup_set_afterGet_self]
        rw [hqty]
        have harith : heldQty p f.symbol -
            (heldQty p f.symbol - min f.qty (heldQty p f.symbol)) =
            min f.qty (heldQty p f.symbol) := by omega
        rw [harith]
    · rw [apply_fill_bad_side p f hq hb hsell] at h
      exact absurd h (by simp)

/-- Witness for C3 at a concrete accepted BUY: 2 shares @ 10 with commission
1 from a fresh ledger with cash 100. -/
theorem C3_cash_conservation_witness :
    ∃ p', apply_fill (mkPortfolio 100) ⟨0, "A", "BUY", 2, 10, 1⟩ = .ok p' ∧
      p'.fills ≠ (mkPortfolio 100).fills ∧
      p'.cash = (mkPortfolio 100).cash -
        (((heldQty p' "A" - heldQty (mkPortfolio 100) "A" : ℤ) : ℚ) * 10 + 1) := by
  have hEq := apply_fill_buy_full (mkPortfolio 100) ⟨0, "A", "BUY", 2, 10, 1⟩
    (by decide) rfl (by norm_num [mkPortfolio])
  refine ⟨_, hEq, by simp [mkPortfolio], ?_⟩
  exact (C3_cash_conservation (mkPortfolio 100) _ ⟨0, "A", "BUY", 2, 10, 1⟩ hEq
    (by simp [mkPortfolio])).1 rfl

/-! ### Step lemmas for fill sequences -/

theorem fillStep_of_ok {p p' : Portfolio} {f : Fill} (h : apply_fill p f = .ok p') :
    fillStep p f = p' := by
  unfold fillStep
  rw [h]

theorem fillStep_of_error {p p' : Portfolio} {f : Fill} {m : String}
    (h : apply_fill p f = .error (m, p')) : fillStep p f = p' := by
  unfold fillStep
  rw [h]

theorem heldQty_setPosition_afterGet (p : Portfolio) (sym : String) (np : Position)
    (p' : Portfolio) (hpos : p'.positions = setPosition (afterGet p sym).positions sym np)
    (s : String) :
    heldQty p' s = if s = sym then np.qty else heldQty p s := by
  by_cases hss : s = sym
  · subst hss
    rw [heldQty, heldPos, hpos, lookup_set_afterGet_self, if_pos rfl]
    rfl
  · rw [heldQty, heldPos, hpos, lookup_set_afterGet_other _ _ _ _ hss, if_neg hss]
    rfl

theorem heldAvg_setPosition_afterGet (p : Portfolio) (sym : String) (np : Position)
    (p' : Portfolio) (hpos : p'.positions = setPosition (afterGet p sym).positions sym np)
    (s : String) :
    heldAvg p' s = if s = sym then np.avg_cost else heldAvg p s := by
  by_cases hss : s = sym
  · subst hss
    rw [heldAvg, heldPos, hpos, lookup_set_afterGet_self, if_pos rfl]
    rfl
  · rw [heldAvg, heldPos, hpos, lookup_set_afterGet_other _ _ _ _ hss, if_neg hss]
    rfl

/-- One `apply_fill` call preserves "every held quantity is ≥ 0", whatever
the fill request is. -/
theorem heldQty_fillStep_nonneg (p : Portfolio) (f : Fill)
    (hp : ∀ s, 0 ≤ heldQty p s) (s : String) : 0 ≤ heldQty (fillStep p f) s := by
  by_cases hq : f.qty ≤ 0
  · rw [fillStep_of_error (apply_fill_qty_nonpos p f hq)]
    exact hp s
  have hq' : 0 < f.qty := lt_of_not_le hq
  by_cases hb : f.side = "BUY"
  · rcases le_or_lt ((f.qty : ℚ) * f.price + f.commission) p.cash with hle | hgt
    · rw [fillStep_of_ok (apply_fill_buy_full p f hq' hb hle)]
      rw [heldQty_setPosition_afterGet p f.symbol _ _ rfl s]
      by_cases hss : s = f.symbol
      · rw [if_pos hss]
        have h1 := hp f.symbol
        show 0 ≤ heldQty p f.symbol + f.qty
        omega
      · rw [if_neg hss]
        exact hp s
    · rcases le_or_lt ⌊(p.cash - f.commission) / f.price⌋ 0 with hle0 | hpos0
      · rw [fillStep_of_ok (apply_fill_buy_dropped p f hq' hb hgt hle0),
            heldQty_afterGet]
        exact hp s
      · rw [fillStep_of_ok (apply_fill_buy_clamped p f hq' hb hgt hpos0)]
        rw [heldQty_setPosition_afterGet p f.symbol _ _ rfl s]
        by_cases hss : s = f.symbol
        · rw [if_pos hss]
          have h1 := hp f.symbol
          show 0 ≤ heldQty p f.symbol + ⌊(p.cash - f.commission) / f.price⌋
          omega
        · rw [if_neg hss]
          exact hp s
  · by_cases hsell : f.side = "SELL"
    · rcases le_or_lt (heldQty p f.symbol) 0 with hh | hh
      · rw [fillStep_of_ok (apply_fill_sell_dropped p f hq' hsell hh), heldQty_afterGet]
        exact hp s
      · rw [fillStep_of_ok (apply_fill_sell_exec p f hq' hsell hh)]
        rw [heldQty_setPosition_afterGet p f.symbol _ _ rfl s]
        by_cases hss : s = f.symbol
        · rw [if_pos hss]
          show 0 ≤ heldQty p f.symbol - min f.qty (heldQty p f.symbol)
          omega
        · rw [if_neg hss]
          exact hp s
    · rw [fillStep_of_error (apply_fill_bad_side p f hq hb hsell)]
      exact hp s

/-- A whole fill sequence preserves "every held quantity is ≥ 0". -/
theorem heldQty_applyFills_nonneg (fs : List Fill) (p : Portfolio)
    (hp : ∀ s, 0 ≤ heldQty p s) (s : String) : 0 ≤ heldQty (applyFills p fs) s := by
  induction fs generalizing p with
  | nil => exact hp s
  | cons f t ih => exact ih (fillStep p f) (heldQty_fillStep_nonneg p f hp)

/-- C2: (1) starting from a ledger whose held quantities are all ≥ 0, every
sequence of fill requests keeps every position's quantity ≥ 0; (2) a SELL
request for more than the held quantity executes only the held quantity (the
position goes to 0 and cash grows by exactly held·price − commission); (3) a
SELL when the held quantity is 0 changes nothing observable: cash, realized
PnL, the fill history, and every symbol's quantity and average cost are
unchanged. -/
theorem C2_no_shorting :
    (∀ (p : Portfolio), (∀ s, 0 ≤ heldQty p s) →
      ∀ (fs : List Fill) (s : String), 0 ≤ heldQty (applyFills p fs) s) ∧
    (∀ (p : Portfolio) (f : Fill), f.side = "SELL" →
      0 < heldQty p f.symbol → heldQty p f.symbol < f.qty →
      ∃ p', apply_fill p f = .ok p' ∧ heldQty p' f.symbol = 0 ∧
        p'.cash = p.cash + ((heldQty p f.symbol : ℚ) * f.price - f.commission)) ∧
    (∀ (p : Portfolio) (f : Fill), f.side = "SELL" → 0 < f.qty →
      heldQty p f.symbol = 0 →
      ∃ p', apply_fill p f = .ok p' ∧ p'.cash = p.cash ∧
        p'.realized_pnl = p.realized_pnl ∧ p'.fills = p.fills ∧
        ∀ s, heldQty p' s = heldQty p s ∧ heldAvg p' s = heldAvg p s) := by
  refine ⟨fun p hp fs s => heldQty_applyFills_nonneg fs p hp s, ?_, ?_⟩
  · intro p f hsell hheld hlt
    have hq' : 0 < f.qty := lt_trans hheld hlt
    refine ⟨_, apply_fill_sell_exec p f hq' hsell hheld, ?_, ?_⟩
    · rw [heldQty_setPosition_afterGet p f.symbol _ _ rfl f.symbol, if_pos rfl]
      show heldQty p f.symbol - min f.qty (heldQty p f.symbol) = 0
      omega
    · show p.cash + (((min f.qty (heldQty p f.symbol) : ℤ) : ℚ) * f.price - f.commission) =
        p.cash + ((heldQty p f.symbol : ℚ) * f.price - f.commission)
      rw [min_eq_right (le_of_lt hlt)]
  · intro p f hsell hq hheld
    refine ⟨_, apply_fill_sell_dropped p f hq hsell (le_of_eq hheld), afterGet_cash p f.symbol,
      afterGet_realized p f.symbol, afterGet_fills p f.symbol,
      fun s => ⟨heldQty_afterGet p f.symbol s, heldAvg_afterGet p f.symbol s⟩⟩

/-- Witness for C2 at concrete inputs: an empty ledger stays non-short under
an adversarial SELL; a SELL for 10 when holding 3 empties the position and
pays out 3·price − commission; a SELL on a flat symbol is a no-op. -/
theorem C2_no_shorting_witness :
    ((∀ s, 0 ≤ heldQty (mkPortfolio 5) s) ∧
      0 ≤ heldQty (applyFills (mkPortfolio 5) [⟨0, "A", "SELL", 1, 1, 0⟩]) "A") ∧
    (((⟨0, "A", "SELL", 10, 2, 0⟩ : Fill).side = "SELL" ∧
      0 < heldQty ⟨10, 0, [("A", ⟨"A", 3, 10⟩)], 0, []⟩ "A" ∧
      heldQty ⟨10, 0, [("A", ⟨"A", 3, 10⟩)], 0, []⟩ "A" < (10 : ℤ)) ∧
     ∃ p', apply_fill ⟨10, 0, [("A", ⟨"A", 3, 10⟩)], 0, []⟩ ⟨0, "A", "SELL", 10, 2, 0⟩ =
         .ok p' ∧ heldQty p' "A" = 0 ∧
       p'.cash = (0 : ℚ) +
         ((heldQty (⟨10, 0, [("A", ⟨"A", 3, 10⟩)], 0, []⟩ : Portfolio) "A" : ℚ) * 2 - 0)) ∧
    (heldQty (mkPortfolio 7) "B" = 0 ∧
     ∃ p', apply_fill (mkPortfolio 7) ⟨0, "B", "SELL", 2, 5, 1⟩ = .ok p' ∧
       p'.cash = (mkPortfolio 7).cash ∧
       p'.realized_pnl = (mkPortfolio 7).realized_pnl ∧
       p'.fills = (mkPortfolio 7).fills ∧
       ∀ s, heldQty p' s = heldQty (mkPortfolio 7) s ∧
         heldAvg p' s = heldAvg (mkPortfolio 7) s) := by
  refine ⟨⟨fun s => le_refl 0, ?_⟩, ⟨⟨rfl, by decide, by decide⟩, ?_⟩, ⟨rfl, ?_⟩⟩
  · exact C2_no_shorting.1 (mkPortfolio 5) (fun s => le_refl 0) [⟨0, "A", "SELL", 1, 1, 0⟩] "A"
  · exact C2_no_shorting.2.1 ⟨10, 0, [("A", ⟨"A", 3, 10⟩)], 0, []⟩ ⟨0, "A", "SELL", 10, 2, 0⟩
      rfl (by decide) (by decide)
  · exact C2_no_shorting.2.2 (mkPortfolio 7) ⟨0, "B", "SELL", 2, 5, 1⟩ rfl (by decide) rfl

/-- One `apply_fill` call keeps cash ≥ 0, provided the fill has a positive
price, a non-negative commission, and — for SELL — a commission of at most
the fill price (so at most the executed proceeds). -/
theorem cash_fillStep_nonneg (p : Portfolio) (f : Fill) (hc : 0 ≤ p.cash)
    (hpx : 0 < f.price) (_hcm : 0 ≤ f.commission)
    (hsc : f.side = "SELL" → f.commission ≤ f.price) :
    0 ≤ (fillStep p f).cash := by
  by_cases hq : f.qty ≤ 0
  · rw [fillStep_of_error (apply_fill_qty_nonpos p f hq)]
    exact hc
  have hq' : 0 < f.qty := lt_of_not_le hq
  by_cases hb : f.side = "BUY"
  · rcases le_or_lt ((f.qty : ℚ) * f.price + f.commission) p.cash with hle | hgt
    · rw [fillStep_of_ok (apply_fill_buy_full p f hq' hb hle)]
      show 0 ≤ p.cash - ((f.qty : ℚ) * f.price + f.commission)
      linarith
    · rcases le_or_lt ⌊(p.cash - f.commission) / f.price⌋ 0 with hle0 | hpos0
      · rw [fillStep_of_ok (apply_fill_buy_dropped p f hq' hb hgt hle0), afterGet_cash]
        exact hc
      · rw [fillStep_of_ok (apply_fill_buy_clamped p f hq' hb hgt hpos0)]
        show 0 ≤ p.cash -
          (((⌊(p.cash - f.commission) / f.price⌋ : ℤ) : ℚ) * f.price + f.commission)
        have hfl : ((⌊(p.cash - f.commission) / f.price⌋ : ℤ) : ℚ) ≤
            (p.cash - f.commission) / f.price := Int.floor_le _
        have h2 : ((⌊(p.cash - f.commission) / f.price⌋ : ℤ) : ℚ) * f.price ≤
            p.cash - f.commission := (le_div_iff₀ hpx).mp hfl
        linarith
  · by_cases hsell : f.side = "SELL"
    · rcases le_or_lt (heldQty p f.symbol) 0 with hh | hh
      · rw [fillStep_of_ok (apply_fill_sell_dropped p f hq' hsell hh), afterGet_cash]
        exact hc
      · rw [fillStep_of_ok (apply_fill_sell_exec p f hq' hsell hh)]
        show 0 ≤ p.cash +
          (((min f.qty (heldQty p f.symbol) : ℤ) : ℚ) * f.price - f.commission)
        have h1 : (1 : ℤ) ≤ min f.qty (heldQty p f.symbol) := by omega
        have h1q : (1 : ℚ) ≤ ((min f.qty (heldQty p f.symbol) : ℤ) : ℚ) := by
          exact_mod_cast h1
        have hpx2 : f.price ≤ ((min f.qty (heldQty p f.symbol) : ℤ) : ℚ) * f.price :=
          le_mul_of_one_le_left (le_of_lt hpx) h1q
        have hsc2 := hsc hsell
        linarith
    · rw [fillStep_of_error (apply_fill_bad_side p f hq hb hsell)]
      exact hc

/-- C1 counterexample to the claim as stated: a SELL with non-negative
commission can drive cash below 0. From a fresh ledger with cash 100, BUY 1
share of "A" @ 100 (commission 0) leaves cash 0; SELL 1 @ 1 with commission 2
then executes with proceeds 1·1 − 2 = −1, leaving cash = −1 < 0. -/
theorem C1_counterexample :
    (0 : ℚ) ≤ (⟨1, "A", "SELL", 1, 1, 2⟩ : Fill).commission ∧
    apply_fill (mkPortfolio 100) ⟨0, "A", "BUY", 1, 100, 0⟩ =
      .ok ⟨100, 0, [("A", ⟨"A", 1, 100⟩)], 0, [⟨0, "A", "BUY", 1, 100, 0⟩]⟩ ∧
    apply_fill (⟨100, 0, [("A", ⟨"A", 1, 100⟩)], 0, [⟨0, "A", "BUY", 1, 100, 0⟩]⟩ : Portfolio)
        ⟨1, "A", "SELL", 1, 1, 2⟩ =
      .ok ⟨100, -1, [("A", ⟨"A", 0, 0⟩)], -101,
        [⟨0, "A", "BUY", 1, 100, 0⟩, ⟨1, "A", "SELL", 1, 1, 2⟩]⟩ ∧
    (⟨100, -1, [("A", ⟨"A", 0, 0⟩)], -101,
        [⟨0, "A", "BUY", 1, 100, 0⟩, ⟨1, "A", "SELL", 1, 1, 2⟩]⟩ : Portfolio).cash < 0 := by
  refine ⟨by norm_num, ?_, ?_, by norm_num⟩
  · norm_num [apply_fill, get_position, lookupPosition, setPosition, mkPortfolio]
  · norm_num [apply_fill, get_position, lookupPosition, setPosition]
    decide

/-- C1 amended: cash stays ≥ 0 after every `apply_fill` call of any fill
sequence — including adversarial BUY requests exceeding available cash — as
long as every fill has a positive price, a non-negative commission, and every
SELL's commission is at most its fill price (the counterexample shows the
restriction on SELL commissions is necessary). -/
theorem C1_amended_cash_nonneg (p : Portfolio) (hc : 0 ≤ p.cash) (fs : List Fill)
    (hf : ∀ f ∈ fs, 0 < f.price ∧ 0 ≤ f.commission ∧
      (f.side = "SELL" → f.commission ≤ f.price)) :
    0 ≤ (applyFills p fs).cash := by
  induction fs generalizing p with
  | nil => exact hc
  | cons f t ih =>
      have hf0 := hf f (List.mem_cons_self f t)
      exact ih (fillStep p f)
        (cash_fillStep_nonneg p f hc hf0.1 hf0.2.1 hf0.2.2)
        (fun g hg => hf g (List.mem_cons_of_mem f hg))

/-- Witness for the amended C1: an adversarial BUY for 1000 shares @ 100 with
cash 5000 followed by an oversized SELL leaves cash ≥ 0. -/
theorem C1_amended_cash_nonneg_witness :
    ((0 : ℚ) ≤ (mkPortfolio 5000).cash ∧
      ∀ f ∈ [(⟨0, "A", "BUY", 1000, 100, 0⟩ : Fill), ⟨1, "A", "SELL", 1000, 90, 5⟩],
        0 < f.price ∧ 0 ≤ f.commission ∧ (f.side = "SELL" → f.commission ≤ f.price)) ∧
    0 ≤ (applyFills (mkPortfolio 5000)
      [⟨0, "A", "BUY", 1000, 100, 0⟩, ⟨1, "A", "SELL", 1000, 90, 5⟩]).cash := by
  have hf : ∀ f ∈ [(⟨0, "A", "BUY", 1000, 100, 0⟩ : Fill), ⟨1, "A", "SELL", 1000, 90, 5⟩],
      0 < f.price ∧ 0 ≤ f.commission ∧ (f.side = "SELL" → f.commission ≤ f.price) := by
    intro f hfm
    simp only [List.mem_cons, List.not_mem_nil, or_false] at hfm
    rcases hfm with rfl | rfl
    · exact ⟨by norm_num, by norm_num, fun hside => by simp at hside⟩
    · exact ⟨by norm_num, by norm_num, fun _ => by norm_num⟩
  exact ⟨⟨by norm_num [mkPortfolio], hf⟩,
    C1_amended_cash_nonneg (mkPortfolio 5000) (by norm_num [mkPortfolio]) _ hf⟩

/-- C5: from a flat (zero-quantity) position in `sym`, zero prior realized
PnL and cash ≥ N·p1, BUY N @ p1 (commission 0) then SELL N @ p2 (commission
0) yields total realized PnL exactly N·(p2 − p1). -/
theorem C5_round_trip_pnl (p0 : Portfolio) (sym : String) (N : ℤ) (p1 p2 : ℚ)
    (h0 : heldQty p0 sym = 0) (hr : p0.realized_pnl = 0) (hN : 0 < N)
    (hc : (N : ℚ) * p1 ≤ p0.cash) :
    ∃ s1 s2, apply_fill p0 ⟨0, sym, "BUY", N, p1, 0⟩ = .ok s1 ∧
      apply_fill s1 ⟨1, sym, "SELL", N, p2, 0⟩ = .ok s2 ∧
      s2.realized_pnl = (N : ℚ) * (p2 - p1) := by
  have hNQ : ((N : ℤ) : ℚ) ≠ 0 := by
    exact_mod_cast ne_of_gt hN
  have hbuy := apply_fill_buy_full p0 ⟨0, sym, "BUY", N, p1, 0⟩ hN rfl (by simpa using hc)
  obtain ⟨s1, hbuyEq, hq1, ha1, hr1⟩ :
      ∃ s1, apply_fill p0 ⟨0, sym, "BUY", N, p1, 0⟩ = .ok s1 ∧
        heldQty s1 sym = N ∧ heldAvg s1 sym = p1 ∧ s1.realized_pnl = 0 := by
    refine ⟨_, hbuy, ?_, ?_, ?_⟩
    · rw [heldQty_setPosition_afterGet p0 sym _ _ rfl sym, if_pos rfl]
      show heldQty p0 sym + N = N
      omega
    · rw [heldAvg_setPosition_afterGet p0 sym _ _ rfl sym, if_pos rfl]
      show (if heldQty p0 sym + N = 0 then 0
            else (heldAvg p0 sym * ((heldQty p0 sym : ℤ) : ℚ) + p1 * ((N : ℤ) : ℚ)) /
              ((heldQty p0 sym + N : ℤ) : ℚ)) = p1
      rw [if_neg (by omega), h0]
      push_cast
      rw [mul_zero, zero_add, zero_add, mul_div_assoc, div_self hNQ, mul_one]
    · show (afterGet p0 sym).realized_pnl = 0
      rw [afterGet_realized, hr]
  obtain ⟨s2, hsellEq, hr2⟩ :
      ∃ s2, apply_fill s1 ⟨1, sym, "SELL", N, p2, 0⟩ = .ok s2 ∧
        s2.realized_pnl = s1.realized_pnl +
          (p2 - heldAvg s1 sym) * ((min N (heldQty s1 sym) : ℤ) : ℚ) - 0 :=
    ⟨_, apply_fill_sell_exec s1 ⟨1, sym, "SELL", N, p2, 0⟩ hN rfl
      (by rw [hq1]; exact hN), rfl⟩
  refine ⟨s1, s2, hbuyEq, hsellEq, ?_⟩
  rw [hr2, hq1, ha1, hr1, min_self]
  ring

/-- Witness for C5: cash 1000, BUY 5 @ 10 then SELL 5 @ 12, both with zero
commission: realized PnL is 5·(12 − 10) = 10. -/
theorem C5_round_trip_pnl_witness :
    (heldQty (mkPortfolio 1000) "A" = 0 ∧ (mkPortfolio 1000).realized_pnl = 0 ∧
      (0 : ℤ) < 5 ∧ ((5 : ℤ) : ℚ) * 10 ≤ (mkPortfolio 1000).cash) ∧
    ∃ s1 s2, apply_fill (mkPortfolio 1000) ⟨0, "A", "BUY", 5, 10, 0⟩ = .ok s1 ∧
      apply_fill s1 ⟨1, "A", "SELL", 5, 12, 0⟩ = .ok s2 ∧
      s2.realized_pnl = ((5 : ℤ) : ℚ) * (12 - 10) :=
  ⟨⟨rfl, rfl, by decide, by norm_num [mkPortfolio]⟩,
    C5_round_trip_pnl (mkPortfolio 1000) "A" 5 10 12 rfl rfl (by decide)
      (by norm_num [mkPortfolio])⟩

/-- C6: for window ≥ 20 and alpha ∈ (0,1), `rolling_historical_var` succeeds
and returns a series of the input's length in which every index `i < w−1` is
absent (`none`, the NaN warm-up — not zero), and every index `i ≥ w−1` holds
`max(0, −quantile(PnL[i−w+1..i], 1−alpha))`, the quantile being the
linear-interpolation quantile (`np_quantile`) of the trailing window of
exactly `w` elements. -/
theorem C6_rolling_var (pnl : List ℚ) (w : ℕ) (α : ℚ) (hw : 20 ≤ w)
    (_h0 : 0 < α) (_h1 : α < 1) :
    ∃ out, rolling_historical_var pnl w α = .ok out ∧ out.length = pnl.length ∧
      ∀ i, i < pnl.length →
        (i < w - 1 → out[i]? = some none) ∧
        (w - 1 ≤ i →
          ((pnl.drop (i + 1 - w)).take w).length = w ∧
          out[i]? = some (some (max 0
            (-(np_quantile ((pnl.drop (i + 1 - w)).take w) (1 - α)))))) := by
  have hok : rolling_historical_var pnl w α = .ok ((List.range pnl.length).map (fun i =>
      if w - 1 ≤ i then
        some (var_of_window α ((pnl.drop (i + 1 - w)).take w))
      else none)) := by
    rw [rolling_historical_var, if_neg (not_lt.mpr hw)]
  refine ⟨_, hok, by simp, ?_⟩
  intro i hi
  constructor
  · intro hlt
    rw [List.getElem?_map, List.getElem?_range hi]
    simp only [Option.map_some']
    rw [if_neg (by omega)]
  · intro hge
    refine ⟨?_, ?_⟩
    · rw [List.length_take, List.length_drop]
      have hw1 : 0 < w := by omega
      omega
    · rw [List.getElem?_map, List.getElem?_range hi]
      simp only [Option.map_some']
      rw [if_pos hge]
      rfl

/-- Witness for C6 at window 20, alpha 1/2, a length-1 PnL series: the single
index 0 < 19 is in the warm-up and is absent. -/
theorem C6_rolling_var_witness :
    (20 ≤ 20 ∧ (0 : ℚ) < 1 / 2 ∧ (1 : ℚ) / 2 < 1) ∧
    ∃ out, rolling_historical_var [(3 : ℚ)] 20 (1 / 2) = .ok out ∧
      out.length = [(3 : ℚ)].length ∧
      ∀ i, i < [(3 : ℚ)].length →
        (i < 20 - 1 → out[i]? = some none) ∧
        (20 - 1 ≤ i →
          (([(3 : ℚ)].drop (i + 1 - 20)).take 20).length = 20 ∧
          out[i]? = some (some (max 0
            (-(np_quantile (([(3 : ℚ)].drop (i + 1 - 20)).take 20) (1 - 1 / 2)))))) :=
  ⟨⟨by decide, by norm_num, by norm_num⟩,
    C6_rolling_var [(3 : ℚ)] 20 (1 / 2) (by decide) (by norm_num) (by norm_num)⟩

/-- `scanl max` holds, at index `i`, the fold of `max` over the first `i`
elements seeded with the accumulator. -/
theorem scanl_max_getElem? (l : List ℚ) (a : ℚ) (i : ℕ) (h : i ≤ l.length) :
    (List.scanl max a l)[i]? = some (List.foldl max a (l.take i)) := by
  induction l generalizing a i with
  | nil =>
      cases i with
      | zero => simp
      | succ j => simp at h
  | cons x t ih =>
      cases i with
      | zero => simp
      | succ j =>
          rw [List.scanl_cons, List.singleton_append, List.getElem?_cons_succ,
            List.take_succ_cons, List.foldl_cons]
          exact ih (max a x) j (by simpa using h)

/-- The running maximum at index `i` is the maximum of the first `i+1`
elements. -/
theorem cummax_getElem? (l : List ℚ) (i : ℕ) (h : i < l.length) :
    (cummax l)[i]? = (l.take (i + 1)).max? := by
  cases l with
  | nil => simp at h
  | cons x t =>
      rw [cummax, scanl_max_getElem? t x i (by simpa using Nat.lt_succ_iff.mp h),
        List.take_succ_cons]
      rfl

/-- C7: `compute_drawdown` produces a value for every index (same length as
the input, no warm-up gap), and at every index the value is
`(peak − equity[i]) / peak` where `peak` is the running maximum of the series
inclusive of index `i`, with the value 0 whenever that peak is 0. -/
theorem C7_drawdown (equity : List ℚ) :
    (compute_drawdown equity).length = equity.length ∧
    ∀ i, i < equity.length → ∀ pk, (equity.take (i + 1)).max? = some pk →
      (compute_drawdown equity)[i]? =
        some (if pk = 0 then 0 else (pk - equity.getD i 0) / pk) := by
  have hlen : (cummax equity).length = equity.length := by
    cases equity <;> simp [cummax, List.length_scanl]
  constructor
  · rw [compute_drawdown, List.length_map, List.length_zip, hlen]
    exact min_self _
  · intro i hi pk hpk
    have hc : (cummax equity)[i]? = some pk := by
      rw [cummax_getElem? equity i hi, hpk]
    have he : equity[i]? = some (equity.getD i 0) := by
      rw [List.getD_eq_getElem?_getD, List.getElem?_eq_getElem hi]
      rfl
    have hz : ((cummax equity).zip equity)[i]? = some (pk, equity.getD i 0) := by
      rw [List.getElem?_zip_eq_some]
      exact ⟨hc, he⟩
    rw [compute_drawdown, List.getElem?_map, hz]
    rfl

/-- Witness for C7: equity series [2, 1]; at index 0 the running peak is 2
and the drawdown cell is (2 − 2)/2. -/
theorem C7_drawdown_witness :
    (compute_drawdown [2, 1]).length = ([2, 1] : List ℚ).length ∧
    (([2, 1] : List ℚ).take 1).max? = some 2 ∧
    (compute_drawdown [2, 1])[0]? =
      some (if (2 : ℚ) = 0 then 0 else (2 - ([2, 1] : List ℚ).getD 0 0) / 2) :=
  ⟨(C7_drawdown [2, 1]).1, rfl, (C7_drawdown [2, 1]).2 0 (by decide) 2 rfl⟩

/-- C4, evaluated at the failing input: holding 3 shares of "A" (after BUY 3
@ 10 from cash 1000), a SELL request for 10 shares executes only 3 (the
position goes to 0 and cash grows by 3·10), **but** the `Fill` appended to
the history records quantity 10 — the originally requested quantity, not the
effective `min(requested, held) = 3`. The BUY branch, by contrast, records
its clamped quantity. -/
theorem C4_sell_records_requested_qty :
    apply_fill (mkPortfolio 1000) ⟨0, "A", "BUY", 3, 10, 0⟩ =
      .ok ⟨1000, 970, [("A", ⟨"A", 3, 10⟩)], 0, [⟨0, "A", "BUY", 3, 10, 0⟩]⟩ ∧
    apply_fill (⟨1000, 970, [("A", ⟨"A", 3, 10⟩)], 0,
        [⟨0, "A", "BUY", 3, 10, 0⟩]⟩ : Portfolio) ⟨1, "A", "SELL", 10, 10, 0⟩ =
      .ok ⟨1000, 1000, [("A", ⟨"A", 0, 0⟩)], 0,
        [⟨0, "A", "BUY", 3, 10, 0⟩, ⟨1, "A", "SELL", 10, 10, 0⟩]⟩ ∧
    min (10 : ℤ) 3 = 3 ∧
    ([⟨0, "A", "BUY", 3, 10, 0⟩, ⟨1, "A", "SELL", 10, 10, 0⟩] : List Fill).getLast?.map
      Fill.qty = some 10 ∧
    (10 : ℤ) ≠ min 10 3 := by
  refine ⟨?_, ?_, by decide, by decide, by decide⟩
  · norm_num [apply_fill, get_position, lookupPosition, setPosition, mkPortfolio]
  · norm_num [apply_fill, get_position, lookupPosition, setPosition]
    decide

end QuantRisk
